import Mathlib

/-!
Shallow embedding of the STL-viewer repository (ModelPart / VRRenderThread).

Heap-allocated objects (ModelPart nodes, VTK readers, mappers, properties and
actors) are modelled by lists indexed by allocation order: an "address" is an
index into the corresponding list, allocation appends, and `ModelPart` nodes
may be deleted (entry set to `none`).  C++ `double` is modelled by `ℚ`: the
embedded operations only store, negate and subtract doubles, so exact
rational arithmetic mirrors them.  `unsigned char` parameters are modelled by
`Nat` reduced modulo 256 at the conversion point.
-/

/-- Model of Qt's QVariant: the code stores opaque per-column values and the
default-constructed `QVariant()` (here `QVariant.null`). -/
inductive QVariant where
  | null : QVariant
  | str : String → QVariant
  | intVal : Int → QVariant
  | boolVal : Bool → QVariant
deriving DecidableEq

/-- Model of Qt's QColor as an RGB triple (the code only uses the
`QColor(int, int, int)` constructor and the `red/green/blue` accessors). -/
structure QColor where
  r : Nat
  g : Nat
  b : Nat
deriving DecidableEq

/-- QColor::red(). -/
def QColor.red (c : QColor) : Nat := c.r

/-- QColor::green(). -/
def QColor.green (c : QColor) : Nat := c.g

/-- QColor::blue(). -/
def QColor.blue (c : QColor) : Nat := c.b

/-- A 3-vector of doubles (modelled by ℚ). -/
structure V3 where
  x : ℚ
  y : ℚ
  z : ℚ
deriving DecidableEq

/-- Model of a vtkProperty object: the code only manipulates its colour
(via `GetProperty()->SetColor`). VTK's default property colour is white. -/
structure VtkPropObj where
  color : V3
deriving DecidableEq

/-- A fresh vtkProperty, as created for a newly constructed vtkActor. -/
def VtkPropObj.fresh : VtkPropObj := ⟨⟨1, 1, 1⟩⟩

/-- The two mapper classes the code instantiates. -/
inductive MapperKind where
  | polyData : MapperKind
  | dataSet : MapperKind
deriving DecidableEq

/-- Model of a vtkMapper: its class and its input connection
(the address of the vtkSTLReader whose output port feeds it). -/
structure VtkMapperObj where
  kind : MapperKind
  source : Option Nat
deriving DecidableEq

/-- Model of a vtkActor: mapper address, address of its vtkProperty
(`SetProperty` aliases this), visibility flag, and the geometric state
touched by `VRRenderThread::addActorOffline` (origin, position and the
accumulated rotation about the X axis). -/
structure VtkActorObj where
  mapper : Option Nat
  prop : Nat
  visibility : Bool
  origin : V3
  pos : V3
  orientationX : ℚ
deriving DecidableEq

/-- A fresh vtkActor referencing the fresh property at address `pid`
(VTK actors are created visible, at the origin, unrotated). -/
def VtkActorObj.new (pid : Nat) : VtkActorObj := ⟨none, pid, true, ⟨0, 0, 0⟩, ⟨0, 0, 0⟩, 0⟩

/-- vtkProp3D::RotateX: accumulate a rotation about the X axis. -/
def VtkActorObj.rotateXBy (θ : ℚ) (a : VtkActorObj) : VtkActorObj :=
  { a with orientationX := a.orientationX + θ }

/-- vtkProp3D::AddPosition: translate the actor's position. -/
def VtkActorObj.addPosition (dx dy dz : ℚ) (a : VtkActorObj) : VtkActorObj :=
  { a with pos := ⟨a.pos.x + dx, a.pos.y + dy, a.pos.z + dz⟩ }

/-- A ModelPart node (ModelPart.h, private section): per-column data, parent
pointer, child list, visibility flag, the VTK handles, and the stored colour
bytes.  The C++ constructor leaves `isVisible` and the colour bytes
uninitialized; the model picks `false`/`0`, which no verified claim reads
before first setting. -/
structure ModelPartObj where
  m_itemData : List QVariant
  m_parentItem : Option Nat
  m_childItems : List Nat
  isVisible : Bool
  stlReader : Option Nat
  stlMapper : Option Nat
  stlActor : Option Nat
  newMapper : Option Nat
  newActor : Option Nat
  colourR : Nat
  colourG : Nat
  colourB : Nat
  polyData : Option Nat
deriving DecidableEq

/-- The program heap: ModelPart nodes (deletable, hence `Option`), STL
readers (their file names), mappers, properties and actors. -/
structure St where
  parts : List (Option ModelPartObj)
  readers : List String
  mappers : List VtkMapperObj
  props : List VtkPropObj
  actors : List VtkActorObj
deriving DecidableEq

/-- The empty heap. -/
def St.empty : St := ⟨[], [], [], [], []⟩

/-- Dereference a ModelPart address (none when dangling or deleted). -/
def St.partAt (st : St) (p : Nat) : Option ModelPartObj :=
  match st.parts[p]? with
  | some (some o) => some o
  | _ => none

/-- ModelPart::ModelPart(data, parent): allocate a node with the given data
and parent pointer; the constructor does not register the node in the
parent's child list.  Returns the updated heap and the new address. -/
def ModelPart.new (dat : List QVariant) (parent : Option Nat) (st : St) : St × Nat :=
  ({ st with parts := st.parts ++ [some ⟨dat, parent, [], false, none, none, none, none, none, 0, 0, 0, none⟩] },
   st.parts.length)

/-- ModelPart::appendChild(item): `item->m_parentItem = this;` then
`m_childItems.append(item);`. -/
def ModelPart.appendChild (p c : Nat) (st : St) : St :=
  let st1 :=
    match st.partAt c with
    | some co => { st with parts := st.parts.set c (some { co with m_parentItem := some p }) }
    | none => st
  match st1.partAt p with
  | some po => { st1 with parts := st1.parts.set p (some { po with m_childItems := po.m_childItems ++ [c] }) }
  | none => st1

/-- ModelPart::child(row): nullptr when the row is out of range, otherwise
the row-th entry of `m_childItems`. -/
def ModelPart.child (p : Nat) (row : Int) (st : St) : Option Nat :=
  match st.partAt p with
  | none => none
  | some o =>
      if row < 0 ∨ (o.m_childItems.length : Int) ≤ row then none
      else o.m_childItems[row.toNat]?

/-- ModelPart::childCount(): `m_childItems.count()`. -/
def ModelPart.childCount (p : Nat) (st : St) : Nat :=
  match st.partAt p with
  | none => 0
  | some o => o.m_childItems.length

/-- ModelPart::columnCount(): `m_itemData.count()`. -/
def ModelPart.columnCount (p : Nat) (st : St) : Nat :=
  match st.partAt p with
  | none => 0
  | some o => o.m_itemData.length

/-- ModelPart::data(column): empty QVariant when the column is out of range,
otherwise the stored value. -/
def ModelPart.data (p : Nat) (column : Int) (st : St) : QVariant :=
  match st.partAt p with
  | none => QVariant.null
  | some o =>
      if column < 0 ∨ (o.m_itemData.length : Int) ≤ column then QVariant.null
      else (o.m_itemData[column.toNat]?).getD QVariant.null

/-- ModelPart::setData(column, value): early return (no state change) when
the column is out of range, otherwise replace the stored value. -/
def ModelPart.setData (p : Nat) (column : Int) (value : QVariant) (st : St) : St :=
  match st.partAt p with
  | none => st
  | some o =>
      if column < 0 ∨ (o.m_itemData.length : Int) ≤ column then st
      else { st with parts := st.parts.set p (some { o with m_itemData := o.m_itemData.set column.toNat value }) }

/-- ModelPart::parentItem(): the stored parent pointer. -/
def ModelPart.parentItem (p : Nat) (st : St) : Option Nat :=
  match st.partAt p with
  | none => none
  | some o => o.m_parentItem

/-- QList::indexOf: index of the first occurrence, -1 when absent. -/
def qIndexOf : List Nat → Nat → Int
  | [], _ => -1
  | a :: as, x => if a = x then 0 else
      let r := qIndexOf as x
      if r = -1 then -1 else r + 1

/-- ModelPart::row(): `m_parentItem->m_childItems.indexOf(this)` when a
parent is set, 0 for a top-level item (a dangling parent pointer would be
undefined behaviour in C++; the model returns 0 there). -/
def ModelPart.row (p : Nat) (st : St) : Int :=
  match st.partAt p with
  | none => 0
  | some o =>
      match o.m_parentItem with
      | none => 0
      | some par =>
          match st.partAt par with
          | some po => qIndexOf po.m_childItems p
          | none => 0

/-- Set the colour of the vtkProperty referenced by the actor at `aid`
(`stlActor->GetProperty()->SetColor(...)`). -/
def St.setActorPropColor (st : St) (aid : Nat) (col : V3) : St :=
  match st.actors[aid]? with
  | some a => { st with props := st.props.set a.prop ⟨col⟩ }
  | none => st

/-- ModelPart::setColour(R, G, B): store the three bytes (the parameters are
`unsigned char`, hence the reduction modulo 256), then, if an actor exists,
apply `R/255.0, G/255.0, B/255.0` to its property. -/
def ModelPart.setColour (p : Nat) (R G B : Nat) (st : St) : St :=
  match st.partAt p with
  | none => st
  | some o =>
      let st1 := { st with parts := st.parts.set p (some { o with colourR := R % 256, colourG := G % 256, colourB := B % 256 }) }
      match o.stlActor with
      | none => st1
      | some aid => st1.setActorPropColor aid ⟨(R % 256 : Nat) / 255, (G % 256 : Nat) / 255, (B % 256 : Nat) / 255⟩

/-- ModelPart::getColourR(). -/
def ModelPart.getColourR (p : Nat) (st : St) : Nat :=
  match st.partAt p with
  | none => 0
  | some o => o.colourR

/-- ModelPart::getColourG(). -/
def ModelPart.getColourG (p : Nat) (st : St) : Nat :=
  match st.partAt p with
  | none => 0
  | some o => o.colourG

/-- ModelPart::getColourB(). -/
def ModelPart.getColourB (p : Nat) (st : St) : Nat :=
  match st.partAt p with
  | none => 0
  | some o => o.colourB

/-- ModelPart::getColor(): `QColor(colourR, colourG, colourB)`. -/
def ModelPart.getColor (p : Nat) (st : St) : QColor :=
  ⟨ModelPart.getColourR p st, ModelPart.getColourG p st, ModelPart.getColourB p st⟩

/-- ModelPart::setColor(color): `setColour(color.red(), color.green(), color.blue())`. -/
def ModelPart.setColor (p : Nat) (color : QColor) (st : St) : St :=
  ModelPart.setColour p color.red color.green color.blue st

/-- ModelPart::setVisible(visible): store the flag and, if an actor exists,
`stlActor->SetVisibility(visible)`. -/
def ModelPart.setVisible (p : Nat) (v : Bool) (st : St) : St :=
  match st.partAt p with
  | none => st
  | some o =>
      let st1 := { st with parts := st.parts.set p (some { o with isVisible := v }) }
      match o.stlActor with
      | none => st1
      | some aid =>
          match st1.actors[aid]? with
          | some a => { st1 with actors := st1.actors.set aid { a with visibility := v } }
          | none => st1

/-- ModelPart::visible(): the stored flag. -/
def ModelPart.visible (p : Nat) (st : St) : Bool :=
  match st.partAt p with
  | none => false
  | some o => o.isVisible

/-- ModelPart::loadSTL(fileName): allocate a reader on the file, a
vtkPolyDataMapper fed by the reader, and a fresh actor (with its fresh
property) mapped by that mapper; store the three handles in the part. -/
def ModelPart.loadSTL (p : Nat) (fileName : String) (st : St) : St :=
  match st.partAt p with
  | none => st
  | some o =>
      let rid := st.readers.length
      let st1 := { st with readers := st.readers ++ [fileName] }
      let mid := st1.mappers.length
      let st2 := { st1 with mappers := st1.mappers ++ [(⟨MapperKind.polyData, some rid⟩ : VtkMapperObj)] }
      let pid := st2.props.length
      let st3 := { st2 with props := st2.props ++ [VtkPropObj.fresh] }
      let aid := st3.actors.length
      let st4 := { st3 with actors := st3.actors ++ [{ VtkActorObj.new pid with mapper := some mid }] }
      { st4 with parts := st4.parts.set p (some { o with stlReader := some rid, stlMapper := some mid, stlActor := some aid }) }

/-- ModelPart::getActor(): the primary actor handle. -/
def ModelPart.getActor (p : Nat) (st : St) : Option Nat :=
  match st.partAt p with
  | none => none
  | some o => o.stlActor

/-- ModelPart::getNewActor(): nullptr when no primary actor exists;
otherwise allocate a vtkDataSetMapper on the same reader output, allocate a
fresh actor mapped by it, then `newActor->SetProperty(stlActor->GetProperty())`
— the new actor's property address becomes the primary actor's property
address (the property object is shared, not copied).  Returns the updated
heap and the returned actor. -/
def ModelPart.getNewActor (p : Nat) (st : St) : St × Option Nat :=
  match st.partAt p with
  | none => (st, none)
  | some o =>
      match o.stlActor with
      | none => (st, none)
      | some origAid =>
          let mid := st.mappers.length
          let st1 := { st with mappers := st.mappers ++ [(⟨MapperKind.dataSet, o.stlReader⟩ : VtkMapperObj)] }
          let pid := st1.props.length
          let st2 := { st1 with props := st1.props ++ [VtkPropObj.fresh] }
          let aid := st2.actors.length
          let sharedProp :=
            match st2.actors[origAid]? with
            | some oa => oa.prop
            | none => pid
          let st3 := { st2 with actors := st2.actors ++ [{ VtkActorObj.new pid with mapper := some mid, prop := sharedProp }] }
          let st4 := { st3 with parts := st3.parts.set p (some { o with newMapper := some mid, newActor := some aid }) }
          (st4, some aid)

/-- Recursive deletion (the ModelPart destructor `qDeleteAll(m_childItems)`):
process a worklist of addresses, deleting each live node and queueing its
children; `fuel` bounds the number of steps (any fuel at least the total
number of parent-child references plus the initial worklist length empties
the worklist). -/
def deleteParts : Nat → List Nat → List (Option ModelPartObj) → List (Option ModelPartObj)
  | 0, _, h => h
  | _ + 1, [], h => h
  | fuel + 1, i :: rest, h =>
      match h[i]? with
      | some (some o) => deleteParts fuel (o.m_childItems ++ rest) (h.set i none)
      | _ => deleteParts fuel rest h

/-- Fuel sufficient for `deleteParts`: initial worklist plus one step and one
queued child list per live node. -/
def St.deleteFuel (st : St) (init : Nat) : Nat :=
  init + 1 + st.parts.foldl (fun acc e =>
    match e with
    | some o => acc + o.m_childItems.length + 1
    | none => acc) 0

/-- ModelPart::removeAllChildren(): recursively delete the child subtrees
(`qDeleteAll`, via each child's destructor) and clear the child list. -/
def ModelPart.removeAllChildren (p : Nat) (st : St) : St :=
  match st.partAt p with
  | none => st
  | some o =>
      let h := deleteParts (st.deleteFuel o.m_childItems.length) o.m_childItems st.parts
      let st1 := { st with parts := h }
      match st1.partAt p with
      | some o1 => { st1 with parts := st1.parts.set p (some { o1 with m_childItems := [] }) }
      | none => st1

/-- The effective colour of the actor at `aid`: the colour of the property
it references. -/
def St.actorColor (st : St) (aid : Nat) : Option V3 :=
  match st.actors[aid]? with
  | none => none
  | some a =>
      match st.props[a.prop]? with
      | none => none
      | some pr => some pr.color

/-- VRRenderThread state (the class declaration embedded in
VRRenderThread.cpp): the actor collection, the three per-time-step rotation
angles, the end-of-render flag, the VR pipeline handles (never created in
the embedded operations), the animation timer, and the QThread run status
(`isRunning()`), which `addActorOffline` consults. -/
structure VRRenderThread where
  actors : List Nat
  rotateX : ℚ
  rotateY : ℚ
  rotateZ : ℚ
  endRender : Bool
  renderer : Option Unit
  window : Option Unit
  camera : Option Unit
  interactor : Option Unit
  t_last : Int
  running : Bool
deriving DecidableEq

/-- VRRenderThread::VRRenderThread: fresh empty actor collection, zero
rotations, `endRender = false`, null pipeline handles, `t_last = 0`; the
thread is not yet started. -/
def VRRenderThread.init : VRRenderThread :=
  ⟨[], 0, 0, 0, false, none, none, none, none, 0, false⟩

/-- enum Command: END_RENDER. -/
def VRRenderThread.END_RENDER : Int := 0

/-- enum Command: ROTATE_X. -/
def VRRenderThread.ROTATE_X : Int := 1

/-- enum Command: ROTATE_Y. -/
def VRRenderThread.ROTATE_Y : Int := 2

/-- enum Command: ROTATE_Z. -/
def VRRenderThread.ROTATE_Z : Int := 3

/-- VRRenderThread::issueCommand(cmd, value): a switch on `cmd` that writes
exactly one of the four command fields; an unknown command does nothing.
The source file is cut off in the middle of the ROTATE_Z case
(`this->rotateZ` with no right-hand side); the assignment's right-hand side
is modelled from the spec, which says the rotate commands store `value`
into the corresponding double, exactly as the ROTATE_X and ROTATE_Y cases
do. -/
def VRRenderThread.issueCommand (cmd : Int) (value : ℚ) (vr : VRRenderThread) : VRRenderThread :=
  if cmd = VRRenderThread.END_RENDER then { vr with endRender := true }
  else if cmd = VRRenderThread.ROTATE_X then { vr with rotateX := value }
  else if cmd = VRRenderThread.ROTATE_Y then { vr with rotateY := value }
  else if cmd = VRRenderThread.ROTATE_Z then { vr with rotateZ := value }
  else vr

/-- VRRenderThread::~VRRenderThread: sets `endRender = true` (then waits for
the thread to finish). -/
def VRRenderThread.destructor (vr : VRRenderThread) : VRRenderThread :=
  { vr with endRender := true }

/-- VRRenderThread::addActorOffline(actor): when the thread is not running,
read the actor's origin, rotate it -90 degrees about X, translate it by
(-origin.x + 0, -origin.y - 100, -origin.z - 200), and append it to the
collection; when the thread is running, do nothing. -/
def VRRenderThread.addActorOffline (aid : Nat) (vr : VRRenderThread) (st : St) :
    VRRenderThread × St :=
  if vr.running then (vr, st)
  else
    match st.actors[aid]? with
    | none => (vr, st)
    | some a =>
        let ac := a.origin
        let a2 := (a.rotateXBy (-90)).addPosition (-ac.x + 0) (-ac.y - 100) (-ac.z - 200)
        ({ vr with actors := vr.actors ++ [aid] }, { st with actors := st.actors.set aid a2 })

/-- The operations the GUI thread may invoke on a VRRenderThread while it
holds the object: issuing a command or adding an actor offline. -/
inductive VROp where
  | issue : Int → ℚ → VROp
  | addActor : Nat → VROp

/-- One GUI-side operation on the thread object and the actor heap. -/
def vrStep (op : VROp) (s : VRRenderThread × St) : VRRenderThread × St :=
  match op with
  | VROp.issue cmd value => (VRRenderThread.issueCommand cmd value s.1, s.2)
  | VROp.addActor aid => VRRenderThread.addActorOffline aid s.1 s.2

/-- A sequence of GUI-side operations, applied in order. -/
def vrRun (ops : List VROp) (s : VRRenderThread × St) : VRRenderThread × St :=
  match ops with
  | [] => s
  | op :: rest => vrRun rest (vrStep op s)

/-- The tree projection of a ModelPart node: its parent pointer and child
list. -/
def treeFields (o : ModelPartObj) : Option Nat × List Nat :=
  (o.m_parentItem, o.m_childItems)

/-- Boolean check of parent/child consistency on a ModelPart heap: whenever
a live node `p` lists `c` as a child and `c` is live, `c`'s parent pointer
is `p`. -/
def treeInvB (h : List (Option ModelPartObj)) : Bool :=
  (List.range h.length).all fun p =>
    match h[p]? with
    | some (some po) =>
        po.m_childItems.all fun c =>
          match h[c]? with
          | some (some co) => co.m_parentItem == some p
          | _ => true
    | _ => true

/-- Parent/child consistency of the part tree. -/
def treeInv (st : St) : Prop := treeInvB st.parts = true

instance (st : St) : Decidable (treeInv st) :=
  inferInstanceAs (Decidable (treeInvB st.parts = true))

/-- Every child address stored in a live node is within the allocated range
(in C++ terms: child pointers point into memory the allocator has handed
out; a fresh allocation is never an address already stored somewhere). -/
def childrenBoundedB (h : List (Option ModelPartObj)) : Bool :=
  (List.range h.length).all fun p =>
    match h[p]? with
    | some (some po) => po.m_childItems.all fun c => decide (c < h.length)
    | _ => true

/-- Bounded child addresses, as a proposition on the heap. -/
def childrenBounded (st : St) : Prop := childrenBoundedB st.parts = true

instance (st : St) : Decidable (childrenBounded st) :=
  inferInstanceAs (Decidable (childrenBoundedB st.parts = true))

/-- A bare tree node used in concrete test heaps. -/
def mkPart (parent : Option Nat) (children : List Nat) : ModelPartObj :=
  ⟨[], parent, children, false, none, none, none, none, none, 0, 0, 0, none⟩

/-- Concrete heap for the appendChild counterexample: node 2 is a child of
node 0 (consistently), node 1 is childless. -/
def exHeapA : St :=
  ⟨[some (mkPart none [2]), some (mkPart none []), some (mkPart (some 0) [])], [], [], [], []⟩

/-- Concrete two-node heap used to instantiate the appendChild
postconditions. -/
def exHeapB : St :=
  ⟨[some (mkPart none []), some (mkPart none [])], [], [], [], []⟩

/-- A one-part heap with no STL data loaded. -/
def exPart0 : St := (ModelPart.new [QVariant.str "Part"] none St.empty).1

/-- The one-part heap after loading an STL file into part 0. -/
def exPart1 : St := ModelPart.loadSTL 0 "model.stl" exPart0

/-- The heap after creating a fresh actor for part 0 of `exPart1`. -/
def exPart2 : St := (ModelPart.getNewActor 0 exPart1).1

/-- `exPart2` after recolouring part 0 red through its own setter. -/
def exPart3 : St := ModelPart.setColour 0 255 0 0 exPart2

/-- Characterization of the Boolean parent/child-consistency check. -/
theorem treeInvB_iff (h : List (Option ModelPartObj)) :
    treeInvB h = true ↔
      ∀ (p : Nat) (po : ModelPartObj) (c : Nat) (co : ModelPartObj),
        h[p]? = some (some po) → c ∈ po.m_childItems →
        h[c]? = some (some co) → co.m_parentItem = some p := by
  unfold treeInvB
  rw [List.all_eq_true]
  constructor
  · intro H p po c co h1 h2 h3
    have hp : p < h.length := (List.getElem?_eq_some.mp h1).1
    have H1 := H p (List.mem_range.mpr hp)
    simp only [h1] at H1
    rw [List.all_eq_true] at H1
    have H2 := H1 c h2
    simp only [h3] at H2
    exact eq_of_beq H2
  · intro H p hp
    cases hq : h[p]? with
    | none => simp
    | some oo =>
      cases oo with
      | none => simp
      | some po =>
        simp only []
        rw [List.all_eq_true]
        intro c hc
        cases hcq : h[c]? with
        | none => simp
        | some oo2 =>
          cases oo2 with
          | none => simp
          | some co =>
            simp only []
            exact beq_iff_eq.mpr (H p po c co hq hc hcq)

/-- Characterization of the bounded-child-address check. -/
theorem childrenBoundedB_iff (h : List (Option ModelPartObj)) :
    childrenBoundedB h = true ↔
      ∀ (p : Nat) (po : ModelPartObj), h[p]? = some (some po) →
        ∀ c ∈ po.m_childItems, c < h.length := by
  unfold childrenBoundedB
  rw [List.all_eq_true]
  constructor
  · intro H p po h1 c h2
    have hp : p < h.length := (List.getElem?_eq_some.mp h1).1
    have H1 := H p (List.mem_range.mpr hp)
    simp only [h1] at H1
    rw [List.all_eq_true] at H1
    have H2 := H1 c h2
    exact of_decide_eq_true H2
  · intro H p hp
    cases hq : h[p]? with
    | none => simp
    | some oo =>
      cases oo with
      | none => simp
      | some po =>
        simp only []
        rw [List.all_eq_true]
        intro c hc
        exact decide_eq_true (H p po hq c hc)

/-- Dereferencing an address is reading the heap entry. -/
theorem St.partAt_eq_some {st : St} {p : Nat} {o : ModelPartObj} :
    st.partAt p = some o ↔ st.parts[p]? = some (some o) := by
  unfold St.partAt
  cases hq : st.parts[p]? with
  | none => simp
  | some oo =>
    cases oo with
    | none => simp
    | some o2 => simp

/-- Replacing a live node by one with the same parent and a child list that
only drops entries preserves parent/child consistency. -/
theorem treeInvB_set_shrink (h : List (Option ModelPartObj)) (p : Nat)
    (o o' : ModelPartObj) (hp : h[p]? = some (some o))
    (hpar : o'.m_parentItem = o.m_parentItem)
    (hsub : ∀ d ∈ o'.m_childItems, d ∈ o.m_childItems)
    (hinv : treeInvB h = true) : treeInvB (h.set p (some o')) = true := by
  rw [treeInvB_iff] at hinv ⊢
  have hplen : p < h.length := (List.getElem?_eq_some.mp hp).1
  intro q qo d dobj g1 g2 g3
  rw [List.getElem?_set] at g1 g3
  by_cases hqp : p = q
  · rw [if_pos hqp, if_pos hplen] at g1
    have hqo : qo = o' := by
      injection g1 with ga
      injection ga with gb
      exact gb.symm
    have hd : d ∈ o.m_childItems := hsub d (hqo ▸ g2)
    by_cases hdp : p = d
    · rw [if_pos hdp, if_pos hplen] at g3
      have hdo : dobj = o' := by
        injection g3 with ga
        injection ga with gb
        exact gb.symm
      have hpd : h[d]? = some (some o) := by rw [← hdp]; exact hp
      have hres := hinv p o d o hp hd hpd
      rw [hdo, hpar, ← hqp]
      exact hres
    · rw [if_neg hdp] at g3
      have hres := hinv p o d dobj hp hd g3
      rw [← hqp]
      exact hres
  · rw [if_neg hqp] at g1
    by_cases hdp : p = d
    · rw [if_pos hdp, if_pos hplen] at g3
      have hdo : dobj = o' := by
        injection g3 with ga
        injection ga with gb
        exact gb.symm
      have hpd : h[d]? = some (some o) := by rw [← hdp]; exact hp
      have hres := hinv q qo d o g1 g2 hpd
      rw [hdo, hpar]
      exact hres
    · rw [if_neg hdp] at g3
      exact hinv q qo d dobj g1 g2 g3

/-- Colouring an actor's property touches only the property heap. -/
theorem setActorPropColor_parts (st : St) (aid : Nat) (col : V3) :
    (St.setActorPropColor st aid col).parts = st.parts := by
  unfold St.setActorPropColor
  cases st.actors[aid]? <;> rfl

/-- Two heaps with the same part store satisfy the same tree invariant. -/
theorem treeInv_parts_eq {s1 s2 : St} (h : s2.parts = s1.parts) :
    treeInv s1 → treeInv s2 := by
  unfold treeInv
  rw [h]
  exact id

/-- setData preserves parent/child consistency. -/
theorem treeInv_setData (st : St) (p : Nat) (column : Int) (value : QVariant)
    (hinv : treeInv st) : treeInv (ModelPart.setData p column value st) := by
  unfold ModelPart.setData
  split
  next => exact hinv
  next o heq =>
    split
    next => exact hinv
    next =>
      exact treeInvB_set_shrink st.parts p o _ (St.partAt_eq_some.mp heq) rfl (fun d hd => hd) hinv

/-- setColour preserves parent/child consistency. -/
theorem treeInv_setColour (st : St) (p R G B : Nat)
    (hinv : treeInv st) : treeInv (ModelPart.setColour p R G B st) := by
  unfold ModelPart.setColour
  split
  next => exact hinv
  next o heq =>
    dsimp only []
    split
    next =>
      exact treeInvB_set_shrink st.parts p o _ (St.partAt_eq_some.mp heq) rfl (fun d hd => hd) hinv
    next aid _ =>
      refine treeInv_parts_eq (setActorPropColor_parts _ aid _) ?_
      exact treeInvB_set_shrink st.parts p o _ (St.partAt_eq_some.mp heq) rfl (fun d hd => hd) hinv

/-- setColor preserves parent/child consistency. -/
theorem treeInv_setColor (st : St) (p : Nat) (color : QColor)
    (hinv : treeInv st) : treeInv (ModelPart.setColor p color st) :=
  treeInv_setColour st p color.red color.green color.blue hinv

/-- setVisible preserves parent/child consistency. -/
theorem treeInv_setVisible (st : St) (p : Nat) (v : Bool)
    (hinv : treeInv st) : treeInv (ModelPart.setVisible p v st) := by
  unfold ModelPart.setVisible
  split
  next => exact hinv
  next o heq =>
    dsimp only []
    have base : treeInvB (st.parts.set p (some { o with isVisible := v })) = true :=
      treeInvB_set_shrink st.parts p o _ (St.partAt_eq_some.mp heq) rfl (fun d hd => hd) hinv
    split
    next => exact base
    next aid _ =>
      split
      next a _ => exact base
      next => exact base

/-- loadSTL preserves parent/child consistency. -/
theorem treeInv_loadSTL (st : St) (p : Nat) (fileName : String)
    (hinv : treeInv st) : treeInv (ModelPart.loadSTL p fileName st) := by
  unfold ModelPart.loadSTL
  split
  next => exact hinv
  next o heq =>
    dsimp only []
    exact treeInvB_set_shrink st.parts p o _ (St.partAt_eq_some.mp heq) rfl (fun d hd => hd) hinv

/-- getNewActor preserves parent/child consistency. -/
theorem treeInv_getNewActor (st : St) (p : Nat)
    (hinv : treeInv st) : treeInv (ModelPart.getNewActor p st).1 := by
  unfold ModelPart.getNewActor
  split
  next => exact hinv
  next o heq =>
    split
    next => exact hinv
    next origAid _ =>
      dsimp only []
      exact treeInvB_set_shrink st.parts p o _ (St.partAt_eq_some.mp heq) rfl (fun d hd => hd) hinv

/-- Allocating a new ModelPart preserves parent/child consistency, provided
child addresses stored in live nodes lie within the allocated range (a fresh
allocation is then listed in no child list). -/
theorem treeInv_new (st : St) (dat : List QVariant) (parent : Option Nat)
    (hb : childrenBounded st) (hinv : treeInv st) :
    treeInv (ModelPart.new dat parent st).1 := by
  unfold ModelPart.new treeInv at *
  unfold childrenBounded at hb
  rw [childrenBoundedB_iff] at hb
  rw [treeInvB_iff] at hinv ⊢
  dsimp only []
  intro q qo d dobj g1 g2 g3
  by_cases hq : q < st.parts.length
  · rw [List.getElem?_append_left hq] at g1
    have hd : d < st.parts.length := hb q qo g1 d g2
    rw [List.getElem?_append_left hd] at g3
    exact hinv q qo d dobj g1 g2 g3
  · rw [List.getElem?_append_right (le_of_not_lt hq)] at g1
    cases hk : q - st.parts.length with
    | zero =>
      rw [hk] at g1
      rw [List.getElem?_cons_zero] at g1
      have hqo : qo = ⟨dat, parent, [], false, none, none, none, none, none, 0, 0, 0, none⟩ := by
        injection g1 with ga
        injection ga with gb
        exact gb.symm
      rw [hqo] at g2
      exact absurd g2 (List.not_mem_nil d)
    | succ n =>
      rw [hk] at g1
      rw [List.getElem?_cons_succ] at g1
      simp at g1

/-- Normal form of appendChild on distinct live addresses. -/
theorem appendChild_eq (st : St) (p c : Nat) (po co : ModelPartObj)
    (hp : st.partAt p = some po) (hc : st.partAt c = some co) (hpc : p ≠ c) :
    ModelPart.appendChild p c st =
      { st with parts := ((st.parts.set c (some { co with m_parentItem := some p })).set p
          (some { po with m_childItems := po.m_childItems ++ [c] })) } := by
  unfold ModelPart.appendChild
  simp only [hc]
  have h1 : ({ st with parts := st.parts.set c (some { co with m_parentItem := some p }) } : St).partAt p = some po := by
    rw [St.partAt_eq_some]
    show (st.parts.set c (some { co with m_parentItem := some p }))[p]? = some (some po)
    rw [List.getElem?_set_ne (Ne.symm hpc)]
    exact St.partAt_eq_some.mp hp
  rw [h1]

/-- Normal form of appendChild when a node is appended to itself. -/
theorem appendChild_self_eq (st : St) (p : Nat) (po : ModelPartObj)
    (hp : st.partAt p = some po) :
    ModelPart.appendChild p p st =
      { st with parts := (st.parts.set p
          (some { po with m_parentItem := some p, m_childItems := po.m_childItems ++ [p] })) } := by
  unfold ModelPart.appendChild
  simp only [hp]
  have hplen : p < st.parts.length := (List.getElem?_eq_some.mp (St.partAt_eq_some.mp hp)).1
  have h1 : ({ st with parts := st.parts.set p (some { po with m_parentItem := some p }) } : St).partAt p = some { po with m_parentItem := some p } := by
    rw [St.partAt_eq_some]
    show (st.parts.set p (some { po with m_parentItem := some p }))[p]? = _
    rw [List.getElem?_set_self hplen]
  rw [h1]
  show ({ st with parts := ((st.parts.set p (some { po with m_parentItem := some p })).set p (some { po with m_parentItem := some p, m_childItems := po.m_childItems ++ [p] })) } : St) = _
  rw [List.set_set]

/-- Injectivity of the double-some heap entry. -/
theorem oo_inj {a b : ModelPartObj} (h : some (some a) = some (some b)) : a = b :=
  Option.some.inj (Option.some.inj h)

/-- appendChild preserves parent/child consistency when the appended child
is not currently listed in any node's child list. -/
theorem treeInv_appendChild (st : St) (p c : Nat) (po co : ModelPartObj)
    (hp : st.partAt p = some po) (hc : st.partAt c = some co)
    (hfresh : ∀ q qo, st.partAt q = some qo → c ∉ qo.m_childItems)
    (hinv : treeInv st) : treeInv (ModelPart.appendChild p c st) := by
  have hplen : p < st.parts.length := (List.getElem?_eq_some.mp (St.partAt_eq_some.mp hp)).1
  have hclen : c < st.parts.length := (List.getElem?_eq_some.mp (St.partAt_eq_some.mp hc)).1
  by_cases hpc : p = c
  · subst hpc
    have hoeq : co = po := by
      rw [hp] at hc
      injection hc with ga
      exact ga.symm
    subst hoeq
    rw [appendChild_self_eq st p co hp]
    unfold treeInv at hinv ⊢
    rw [treeInvB_iff] at hinv ⊢
    intro q qo d dobj g1 g2 g3
    rw [List.getElem?_set] at g1 g3
    by_cases hqp : p = q
    · rw [if_pos hqp, if_pos hplen] at g1
      have hqo : { co with m_parentItem := some p, m_childItems := co.m_childItems ++ [p] } = qo := oo_inj g1
      rw [← hqo] at g2
      rcases List.mem_append.mp g2 with hd | hd
    
      · have hdnp : p ≠ d := by
          intro hpd
          exact hfresh p co hp (hpd ▸ hd)
        rw [if_neg hdnp] at g3
        have hres := hinv p co d dobj (St.partAt_eq_some.mp hp) hd g3
        rw [← hqp]
        exact hres
      · have hdp : d = p := List.mem_singleton.mp hd
        rw [if_pos hdp.symm, if_pos hplen] at g3
        have hdo : { co with m_parentItem := some p, m_childItems := co.m_childItems ++ [p] } = dobj := oo_inj g3
        rw [← hdo, ← hqp]
    · rw [if_neg hqp] at g1
      have hdnp : p ≠ d := by
        intro hpd
        exact hfresh q qo (St.partAt_eq_some.mpr g1) (hpd ▸ g2)
      rw [if_neg hdnp] at g3
      exact hinv q qo d dobj g1 g2 g3
  · rw [appendChild_eq st p c po co hp hc hpc]
    unfold treeInv at hinv ⊢
    rw [treeInvB_iff] at hinv ⊢
    intro q qo d dobj g1 g2 g3
    rw [List.getElem?_set, List.length_set] at g1 g3
    by_cases hqp : p = q
    · rw [if_pos hqp, if_pos hplen] at g1
      have hqo : { po with m_childItems := po.m_childItems ++ [c] } = qo := oo_inj g1
      rw [← hqo] at g2
      rcases List.mem_append.mp g2 with hd | hd
      · have hdnc : c ≠ d := by
          intro hcd
          exact hfresh p po hp (hcd ▸ hd)
        by_cases hdp : p = d
        · rw [if_pos hdp, if_pos hplen] at g3
          have hdo : { po with m_childItems := po.m_childItems ++ [c] } = dobj := oo_inj g3
          have hself : po.m_parentItem = some p := by
            have hpd : (p : Nat) ∈ po.m_childItems := hdp ▸ hd
            exact hinv p po p po (St.partAt_eq_some.mp hp) hpd (St.partAt_eq_some.mp hp)
          rw [← hdo, ← hqp]
          exact hself
        · rw [if_neg hdp, List.getElem?_set_ne hdnc] at g3
          have hres := hinv p po d dobj (St.partAt_eq_some.mp hp) hd g3
          rw [← hqp]
          exact hres
      · have hdc : d = c := List.mem_singleton.mp hd
        have hpd : p ≠ d := fun hx => hpc (hx.trans hdc)
        rw [if_neg hpd, hdc, List.getElem?_set_self hclen] at g3
        have hdo : { co with m_parentItem := some p } = dobj := oo_inj g3
        rw [← hdo, ← hqp]
    · rw [if_neg hqp] at g1
      by_cases hqc : c = q
      · rw [List.getElem?_set, if_pos hqc, if_pos hclen] at g1
        have hqo : { co with m_parentItem := some p } = qo := oo_inj g1
        rw [← hqo] at g2
        have hdnc : c ≠ d := by
          intro hcd
          exact hfresh c co hc (hcd ▸ g2)
        by_cases hdp : p = d
        · rw [if_pos hdp, if_pos hplen] at g3
          have hdo : { po with m_childItems := po.m_childItems ++ [c] } = dobj := oo_inj g3
          have hres : po.m_parentItem = some c := hinv c co p po (St.partAt_eq_some.mp hc) (hdp ▸ g2) (St.partAt_eq_some.mp hp)
          rw [← hdo, hqc] at *
          exact hres
        · rw [if_neg hdp, List.getElem?_set_ne hdnc] at g3
          have hres := hinv c co d dobj (St.partAt_eq_some.mp hc) g2 g3
          rw [← hqc]
          exact hres
      · rw [List.getElem?_set_ne hqc] at g1
        have hdnc : c ≠ d := by
          intro hcd
          exact hfresh q qo (St.partAt_eq_some.mpr g1) (hcd ▸ g2)
        by_cases hdp : p = d
        · rw [if_pos hdp, if_pos hplen] at g3
          have hdo : { po with m_childItems := po.m_childItems ++ [c] } = dobj := oo_inj g3
          have hres : po.m_parentItem = some q := hinv q qo p po g1 (hdp ▸ g2) (St.partAt_eq_some.mp hp)
          rw [← hdo]
          exact hres
        · rw [if_neg hdp, List.getElem?_set_ne hdnc] at g3
          exact hinv q qo d dobj g1 g2 g3

/-- Unfolding lemma for one deletion step. -/
theorem deleteParts_cons (n j : Nat) (rest : List Nat)
    (h : List (Option ModelPartObj)) :
    deleteParts (n + 1) (j :: rest) h =
      match h[j]? with
      | some (some o) => deleteParts n (o.m_childItems ++ rest) (h.set j none)
      | _ => deleteParts n rest h := rfl

/-- Recursive deletion only removes entries: any address afterwards reads
either its old entry or a deleted slot. -/
theorem deleteParts_getElem (fuel : Nat) (ids : List Nat)
    (h : List (Option ModelPartObj)) (i : Nat) :
    (deleteParts fuel ids h)[i]? = h[i]? ∨ (deleteParts fuel ids h)[i]? = some none := by
  induction fuel generalizing ids h with
  | zero => exact Or.inl rfl
  | succ n ih =>
    cases ids with
    | nil => exact Or.inl rfl
    | cons j rest =>
      have hset : ∀ (hh : List (Option ModelPartObj)) (k : Nat),
          (hh.set k (none : Option ModelPartObj))[i]? = hh[i]? ∨
          (hh.set k (none : Option ModelPartObj))[i]? = some none := by
        intro hh k
        rw [List.getElem?_set]
        by_cases hki : k = i
        · rw [if_pos hki]
          by_cases hl : k < hh.length
          · rw [if_pos hl]
            exact Or.inr rfl
          · rw [if_neg hl]
            refine Or.inl ?_
            have : hh[i]? = none := List.getElem?_eq_none (by omega)
            rw [this]
        · rw [if_neg hki]
          exact Or.inl rfl
      rw [deleteParts_cons]
      cases hj : h[j]? with
      | none => exact ih rest h
      | some oo =>
        cases oo with
        | none => exact ih rest h
        | some o =>
          rcases ih (o.m_childItems ++ rest) (h.set j none) with hcase | hcase
          · rcases hset h j with h2 | h2
            · exact Or.inl (hcase.trans h2)
            · exact Or.inr (hcase.trans h2)
          · exact Or.inr hcase

/-- A heap obtained by only deleting entries keeps parent/child
consistency. -/
theorem treeInvB_del (h h' : List (Option ModelPartObj))
    (hdel : ∀ (i : Nat), h'[i]? = h[i]? ∨ h'[i]? = some none)
    (hinv : treeInvB h = true) : treeInvB h' = true := by
  rw [treeInvB_iff] at hinv ⊢
  intro q qo d dobj g1 g2 g3
  rcases hdel q with e | e
  · rw [e] at g1
    rcases hdel d with e2 | e2
    · rw [e2] at g3
      exact hinv q qo d dobj g1 g2 g3
    · rw [e2] at g3
      have g3' := Option.some.inj g3
      cases g3'
  · rw [e] at g1
    have g1' := Option.some.inj g1
    cases g1'

/-- removeAllChildren preserves parent/child consistency. -/
theorem treeInv_removeAllChildren (st : St) (p : Nat)
    (hinv : treeInv st) : treeInv (ModelPart.removeAllChildren p st) := by
  unfold ModelPart.removeAllChildren
  split
  next => exact hinv
  next o heq =>
    dsimp only []
    have hdelinv : treeInvB (deleteParts (st.deleteFuel o.m_childItems.length)
        o.m_childItems st.parts) = true :=
      treeInvB_del st.parts _
        (fun i => deleteParts_getElem (st.deleteFuel o.m_childItems.length) o.m_childItems st.parts i)
        hinv
    split
    next o1 heq1 =>
      exact treeInvB_set_shrink _ p o1 _ (St.partAt_eq_some.mp heq1) rfl
        (fun d hd => absurd hd (List.not_mem_nil d)) hdelinv
    next => exact hdelinv

/-- QList::indexOf on a present element: the result is a valid index whose
entry is the element. -/
theorem qIndexOf_spec (l : List Nat) (x : Nat) (hx : x ∈ l) :
    0 ≤ qIndexOf l x ∧ qIndexOf l x < (l.length : Int) ∧
      l[(qIndexOf l x).toNat]? = some x := by
  induction l with
  | nil => cases hx
  | cons a as ih =>
    by_cases hax : a = x
    · unfold qIndexOf
      rw [if_pos hax]
      refine ⟨le_refl 0, ?_, ?_⟩
      · simp
      · rw [Int.toNat_zero, List.getElem?_cons_zero, hax]
    · have hx' : x ∈ as := by
        rcases List.mem_cons.mp hx with h1 | h1
        · exact absurd h1.symm hax
        · exact h1
      obtain ⟨h0, hlt, hget⟩ := ih hx'
      have hne : qIndexOf as x ≠ -1 := by
        intro heqm
        rw [heqm] at h0
        omega
      unfold qIndexOf
      rw [if_neg hax]
      dsimp only []
      rw [if_neg hne]
      refine ⟨by omega, ?_, ?_⟩
      · rw [List.length_cons]
        push_cast
        omega
      · have ht : (qIndexOf as x + 1).toNat = (qIndexOf as x).toNat + 1 := by omega
        rw [ht, List.getElem?_cons_succ]
        exact hget

/-- Postconditions of appendChild: the child's parent pointer names the
target node, the child count grows by one, the last slot holds the child,
and row() is a valid index of the new parent's child list holding the
child. -/
theorem appendChild_post (st : St) (p c : Nat) (po co : ModelPartObj)
    (hp : st.partAt p = some po) (hc : st.partAt c = some co) :
    ModelPart.parentItem c (ModelPart.appendChild p c st) = some p ∧
    ModelPart.childCount p (ModelPart.appendChild p c st) = ModelPart.childCount p st + 1 ∧
    ModelPart.child p ((ModelPart.childCount p (ModelPart.appendChild p c st) : Int) - 1)
        (ModelPart.appendChild p c st) = some c ∧
    0 ≤ ModelPart.row c (ModelPart.appendChild p c st) ∧
    ModelPart.child p (ModelPart.row c (ModelPart.appendChild p c st))
        (ModelPart.appendChild p c st) = some c := by
  have hplen : p < st.parts.length := (List.getElem?_eq_some.mp (St.partAt_eq_some.mp hp)).1
  have hclen : c < st.parts.length := (List.getElem?_eq_some.mp (St.partAt_eq_some.mp hc)).1
  by_cases hpc : p = c
  · subst hpc
    have hoeq : co = po := by
      rw [hp] at hc
      injection hc with ga
      exact ga.symm
    subst hoeq
    have e1 : (ModelPart.appendChild p p st).partAt p =
        some { co with m_parentItem := some p, m_childItems := co.m_childItems ++ [p] } := by
      rw [appendChild_self_eq st p co hp, St.partAt_eq_some]
      show (st.parts.set p (some { co with m_parentItem := some p, m_childItems := co.m_childItems ++ [p] }))[p]? = _
      rw [List.getElem?_set_self hplen]
    have hm : p ∈ co.m_childItems ++ [p] := List.mem_append_right _ (List.mem_singleton.mpr rfl)
    obtain ⟨h0, hlt, hget⟩ := qIndexOf_spec (co.m_childItems ++ [p]) p hm
    have er : ModelPart.row p (ModelPart.appendChild p p st) = qIndexOf (co.m_childItems ++ [p]) p := by
      unfold ModelPart.row
      rw [e1]
      dsimp only []
      rw [e1]
    refine ⟨?_, ?_, ?_, ?_, ?_⟩
    · unfold ModelPart.parentItem
      rw [e1]
    · unfold ModelPart.childCount
      rw [e1, hp]
      simp
    · unfold ModelPart.childCount ModelPart.child
      rw [e1]
      dsimp only []
      rw [if_neg (by
        simp only [List.length_append, List.length_cons, List.length_nil]
        push_cast
        omega)]
      have ht : ((((co.m_childItems ++ [p]).length : Nat) : Int) - 1).toNat = co.m_childItems.length := by
        simp only [List.length_append, List.length_cons, List.length_nil]
        push_cast
        omega
      rw [ht]
      exact List.getElem?_concat_length co.m_childItems p
    · rw [er]
      exact h0
    · rw [er]
      unfold ModelPart.child
      rw [e1]
      dsimp only []
      rw [if_neg (by omega)]
      exact hget
  · have e1 : (ModelPart.appendChild p c st).partAt p =
        some { po with m_childItems := po.m_childItems ++ [c] } := by
      rw [appendChild_eq st p c po co hp hc hpc, St.partAt_eq_some]
      show ((st.parts.set c (some { co with m_parentItem := some p })).set p
          (some { po with m_childItems := po.m_childItems ++ [c] }))[p]? = _
      rw [List.getElem?_set_self (by rw [List.length_set]; exact hplen)]
    have e2 : (ModelPart.appendChild p c st).partAt c =
        some { co with m_parentItem := some p } := by
      rw [appendChild_eq st p c po co hp hc hpc, St.partAt_eq_some]
      show ((st.parts.set c (some { co with m_parentItem := some p })).set p
          (some { po with m_childItems := po.m_childItems ++ [c] }))[c]? = _
      rw [List.getElem?_set_ne hpc, List.getElem?_set_self hclen]
    have hm : c ∈ po.m_childItems ++ [c] := List.mem_append_right _ (List.mem_singleton.mpr rfl)
    obtain ⟨h0, hlt, hget⟩ := qIndexOf_spec (po.m_childItems ++ [c]) c hm
    have er : ModelPart.row c (ModelPart.appendChild p c st) = qIndexOf (po.m_childItems ++ [c]) c := by
      unfold ModelPart.row
      rw [e2]
      dsimp only []
      rw [e1]
    refine ⟨?_, ?_, ?_, ?_, ?_⟩
    · unfold ModelPart.parentItem
      rw [e2]
    · unfold ModelPart.childCount
      rw [e1, hp]
      simp
    · unfold ModelPart.childCount ModelPart.child
      rw [e1]
      dsimp only []
      rw [if_neg (by
        simp only [List.length_append, List.length_cons, List.length_nil]
        push_cast
        omega)]
      have ht : ((((po.m_childItems ++ [c]).length : Nat) : Int) - 1).toNat = po.m_childItems.length := by
        simp only [List.length_append, List.length_cons, List.length_nil]
        push_cast
        omega
      rw [ht]
      exact List.getElem?_concat_length po.m_childItems c
    · rw [er]
      exact h0
    · rw [er]
      unfold ModelPart.child
      rw [e1]
      dsimp only []
      rw [if_neg (by omega)]
      exact hget

/-- partAt only depends on the part store. -/
theorem partAt_parts_eq {s1 s2 : St} (h : s2.parts = s1.parts) (p : Nat) :
    s2.partAt p = s1.partAt p := by
  unfold St.partAt
  rw [h]

/-- The part seen at `p` after setColour: the three stored bytes are
replaced (reduced modulo 256, as by the `unsigned char` conversion). -/
theorem setColour_partAt (st : St) (p : Nat) (o : ModelPartObj) (R G B : Nat)
    (ho : st.partAt p = some o) :
    (ModelPart.setColour p R G B st).partAt p =
      some { o with colourR := R % 256, colourG := G % 256, colourB := B % 256 } := by
  have hplen : p < st.parts.length := (List.getElem?_eq_some.mp (St.partAt_eq_some.mp ho)).1
  unfold ModelPart.setColour
  rw [ho]
  dsimp only []
  have hbase : ({ st with parts := (st.parts.set p
      (some { o with colourR := R % 256, colourG := G % 256, colourB := B % 256 })) } : St).partAt p =
      some { o with colourR := R % 256, colourG := G % 256, colourB := B % 256 } := by
    rw [St.partAt_eq_some]
    show (st.parts.set p _)[p]? = _
    rw [List.getElem?_set_self hplen]
  split
  next => exact hbase
  next aid _ =>
    rw [partAt_parts_eq (setActorPropColor_parts _ aid _) p]
    exact hbase

/-- A decidable bounded check implying the freshness side condition of
appendChild. -/
theorem fresh_of_check (st : St) (c : Nat)
    (h : ((List.range st.parts.length).all fun q =>
        match st.parts[q]? with
        | some (some qo) => decide (c ∉ qo.m_childItems)
        | _ => true) = true) :
    ∀ (q : Nat) (qo : ModelPartObj), st.partAt q = some qo → c ∉ qo.m_childItems := by
  intro q qo hq
  rw [St.partAt_eq_some] at hq
  have hlen : q < st.parts.length := (List.getElem?_eq_some.mp hq).1
  rw [List.all_eq_true] at h
  have h2 := h q (List.mem_range.mpr hlen)
  simp only [hq] at h2
  exact of_decide_eq_true h2

/-- issueCommand never clears an already-set endRender flag. -/
theorem issueCommand_endRender_mono (cmd : Int) (value : ℚ) (vr : VRRenderThread)
    (h : vr.endRender = true) :
    (VRRenderThread.issueCommand cmd value vr).endRender = true := by
  unfold VRRenderThread.issueCommand
  split_ifs <;> first | rfl | exact h

/-- addActorOffline does not touch the endRender flag. -/
theorem addActorOffline_endRender (aid : Nat) (vr : VRRenderThread) (st : St) :
    (VRRenderThread.addActorOffline aid vr st).1.endRender = vr.endRender := by
  unfold VRRenderThread.addActorOffline
  split_ifs with h
  · rfl
  · split <;> rfl

/-- C1: For every command in {END_RENDER, ROTATE_X, ROTATE_Y, ROTATE_Z} and
every double value, issueCommand updates exactly one of the four command
fields — endRender becomes true for END_RENDER (the value is ignored), and
the matching rotation field receives the value for the rotate commands —
and the other three command fields and the actor collection are left
unchanged. -/
theorem issueCommand_frame (vr : VRRenderThread) (value : ℚ) :
    ((VRRenderThread.issueCommand VRRenderThread.END_RENDER value vr).endRender = true ∧
      (VRRenderThread.issueCommand VRRenderThread.END_RENDER value vr).rotateX = vr.rotateX ∧
      (VRRenderThread.issueCommand VRRenderThread.END_RENDER value vr).rotateY = vr.rotateY ∧
      (VRRenderThread.issueCommand VRRenderThread.END_RENDER value vr).rotateZ = vr.rotateZ ∧
      (VRRenderThread.issueCommand VRRenderThread.END_RENDER value vr).actors = vr.actors) ∧
    ((VRRenderThread.issueCommand VRRenderThread.ROTATE_X value vr).rotateX = value ∧
      (VRRenderThread.issueCommand VRRenderThread.ROTATE_X value vr).endRender = vr.endRender ∧
      (VRRenderThread.issueCommand VRRenderThread.ROTATE_X value vr).rotateY = vr.rotateY ∧
      (VRRenderThread.issueCommand VRRenderThread.ROTATE_X value vr).rotateZ = vr.rotateZ ∧
      (VRRenderThread.issueCommand VRRenderThread.ROTATE_X value vr).actors = vr.actors) ∧
    ((VRRenderThread.issueCommand VRRenderThread.ROTATE_Y value vr).rotateY = value ∧
      (VRRenderThread.issueCommand VRRenderThread.ROTATE_Y value vr).endRender = vr.endRender ∧
      (VRRenderThread.issueCommand VRRenderThread.ROTATE_Y value vr).rotateX = vr.rotateX ∧
      (VRRenderThread.issueCommand VRRenderThread.ROTATE_Y value vr).rotateZ = vr.rotateZ ∧
      (VRRenderThread.issueCommand VRRenderThread.ROTATE_Y value vr).actors = vr.actors) ∧
    ((VRRenderThread.issueCommand VRRenderThread.ROTATE_Z value vr).rotateZ = value ∧
      (VRRenderThread.issueCommand VRRenderThread.ROTATE_Z value vr).endRender = vr.endRender ∧
      (VRRenderThread.issueCommand VRRenderThread.ROTATE_Z value vr).rotateX = vr.rotateX ∧
      (VRRenderThread.issueCommand VRRenderThread.ROTATE_Z value vr).rotateY = vr.rotateY ∧
      (VRRenderThread.issueCommand VRRenderThread.ROTATE_Z value vr).actors = vr.actors) :=
  ⟨⟨rfl, rfl, rfl, rfl, rfl⟩, ⟨rfl, rfl, rfl, rfl, rfl⟩,
   ⟨rfl, rfl, rfl, rfl, rfl⟩, ⟨rfl, rfl, rfl, rfl, rfl⟩⟩

/-- C6: The endRender flag is initialized to false by the constructor, set
to true by issueCommand(END_RENDER, _) and by the destructor, and across any
sequence of issueCommand and addActorOffline calls it never transitions
from true back to false. -/
theorem endRender_never_revoked :
    VRRenderThread.init.endRender = false ∧
    (∀ (value : ℚ) (vr : VRRenderThread),
        (VRRenderThread.issueCommand VRRenderThread.END_RENDER value vr).endRender = true) ∧
    (∀ (vr : VRRenderThread), (VRRenderThread.destructor vr).endRender = true) ∧
    (∀ (ops : List VROp) (vr : VRRenderThread) (st : St),
        vr.endRender = true → (vrRun ops (vr, st)).1.endRender = true) := by
  refine ⟨rfl, fun value vr => rfl, fun vr => rfl, ?_⟩
  intro ops
  induction ops with
  | nil =>
    intro vr st h
    exact h
  | cons op rest ih =>
    intro vr st h
    show (vrRun rest (vrStep op (vr, st))).1.endRender = true
    cases op with
    | issue cmd value => exact ih _ _ (issueCommand_endRender_mono cmd value vr h)
    | addActor aid =>
      have hmono : (VRRenderThread.addActorOffline aid vr st).1.endRender = true := by
        rw [addActorOffline_endRender]
        exact h
      exact ih _ _ hmono

/-- Witness for C6 at a concrete thread state and operation sequence. -/
theorem endRender_never_revoked_witness :
    (vrRun [VROp.issue VRRenderThread.ROTATE_X 5, VROp.addActor 0]
        ({ VRRenderThread.init with endRender := true }, exPart1)).1.endRender = true :=
  endRender_never_revoked.2.2.2 [VROp.issue VRRenderThread.ROTATE_X 5, VROp.addActor 0]
    { VRRenderThread.init with endRender := true } exPart1 rfl

/-- C9: addActorOffline on a stopped thread rotates the actor -90 degrees
about X, translates it by (-origin.x + 0, -origin.y - 100, -origin.z - 200),
and appends it to the collection, leaving other actors and the rest of the
heap alone; on a running thread it changes nothing. -/
theorem addActorOffline_spec (aid : Nat) (vr : VRRenderThread) (st : St) (a : VtkActorObj)
    (ha : st.actors[aid]? = some a) :
    (vr.running = false →
      (VRRenderThread.addActorOffline aid vr st).2.actors[aid]? =
        some { a with orientationX := a.orientationX + (-90),
                      pos := ⟨a.pos.x + (-a.origin.x + 0), a.pos.y + (-a.origin.y - 100),
                              a.pos.z + (-a.origin.z - 200)⟩ } ∧
      (VRRenderThread.addActorOffline aid vr st).1.actors = vr.actors ++ [aid] ∧
      (∀ (j : Nat), j ≠ aid →
        (VRRenderThread.addActorOffline aid vr st).2.actors[j]? = st.actors[j]?) ∧
      (VRRenderThread.addActorOffline aid vr st).2.parts = st.parts) ∧
    (vr.running = true → VRRenderThread.addActorOffline aid vr st = (vr, st)) := by
  have halen : aid < st.actors.length := (List.getElem?_eq_some.mp ha).1
  constructor
  · intro hr
    unfold VRRenderThread.addActorOffline
    rw [if_neg (by simp [hr])]
    rw [ha]
    dsimp only [VtkActorObj.rotateXBy, VtkActorObj.addPosition]
    refine ⟨?_, rfl, ?_, rfl⟩
    · show (st.actors.set aid _)[aid]? = _
      rw [List.getElem?_set_self halen]
    · intro j hj
      show (st.actors.set aid _)[j]? = st.actors[j]?
      exact List.getElem?_set_ne (Ne.symm hj)
  · intro hr
    unfold VRRenderThread.addActorOffline
    rw [if_pos hr]

/-- Witness for C9 on the loaded one-part heap and a freshly constructed
thread. -/
theorem addActorOffline_spec_witness :
    (VRRenderThread.addActorOffline 0 VRRenderThread.init exPart1).1.actors = [0] ∧
    (VRRenderThread.addActorOffline 0 VRRenderThread.init exPart1).2.actors[0]? =
      some { mapper := some 0, prop := 0, visibility := true, origin := ⟨0, 0, 0⟩,
             pos := ⟨0, -100, -200⟩, orientationX := -90 } := by
  have h := (addActorOffline_spec 0 VRRenderThread.init exPart1
      { VtkActorObj.new 0 with mapper := some 0 } rfl).1 rfl
  obtain ⟨h1, h2, h3, h4⟩ := h
  constructor
  · simpa using h2
  · rw [h1]
    dsimp only [VtkActorObj.new]
    simp only [Option.some.injEq, VtkActorObj.mk.injEq, V3.mk.injEq]
    norm_num

/-- C2 (amended): after p.appendChild(c) on live nodes, c.parentItem() is p,
p.childCount() grows by one, the last child slot is c, and c.row() is a
valid index of p's child list holding c; parent/child consistency is
preserved by every ModelPart operation, where appendChild requires the
appended child not to be listed in any node's child list already, and
allocation assumes stored child addresses lie in the allocated range. -/
theorem modelPart_tree_consistency :
    (∀ (st : St) (p c : Nat) (po co : ModelPartObj),
        st.partAt p = some po → st.partAt c = some co →
        ModelPart.parentItem c (ModelPart.appendChild p c st) = some p ∧
        ModelPart.childCount p (ModelPart.appendChild p c st) = ModelPart.childCount p st + 1 ∧
        ModelPart.child p ((ModelPart.childCount p (ModelPart.appendChild p c st) : Int) - 1)
            (ModelPart.appendChild p c st) = some c ∧
        0 ≤ ModelPart.row c (ModelPart.appendChild p c st) ∧
        ModelPart.child p (ModelPart.row c (ModelPart.appendChild p c st))
            (ModelPart.appendChild p c st) = some c) ∧
    (∀ (st : St) (p c : Nat) (po co : ModelPartObj),
        st.partAt p = some po → st.partAt c = some co →
        (∀ (q : Nat) (qo : ModelPartObj), st.partAt q = some qo → c ∉ qo.m_childItems) →
        treeInv st → treeInv (ModelPart.appendChild p c st)) ∧
    (∀ (st : St) (dat : List QVariant) (parent : Option Nat),
        childrenBounded st → treeInv st → treeInv (ModelPart.new dat parent st).1) ∧
    (∀ (st : St) (p : Nat) (column : Int) (value : QVariant),
        treeInv st → treeInv (ModelPart.setData p column value st)) ∧
    (∀ (st : St) (p R G B : Nat), treeInv st → treeInv (ModelPart.setColour p R G B st)) ∧
    (∀ (st : St) (p : Nat) (color : QColor), treeInv st → treeInv (ModelPart.setColor p color st)) ∧
    (∀ (st : St) (p : Nat) (v : Bool), treeInv st → treeInv (ModelPart.setVisible p v st)) ∧
    (∀ (st : St) (p : Nat) (fn : String), treeInv st → treeInv (ModelPart.loadSTL p fn st)) ∧
    (∀ (st : St) (p : Nat), treeInv st → treeInv (ModelPart.getNewActor p st).1) ∧
    (∀ (st : St) (p : Nat), treeInv st → treeInv (ModelPart.removeAllChildren p st)) :=
  ⟨appendChild_post, treeInv_appendChild, treeInv_new, treeInv_setData, treeInv_setColour,
   treeInv_setColor, treeInv_setVisible, treeInv_loadSTL, treeInv_getNewActor,
   treeInv_removeAllChildren⟩

/-- C2 counterexample: node 2 is consistently a child of node 0; appending
it also to node 1 leaves it in node 0's child list while its parent pointer
names node 1, so the parent/child invariant is not preserved by appendChild
without a freshness condition. -/
theorem appendChild_breaks_invariant_cex :
    treeInv exHeapA ∧ ¬ treeInv (ModelPart.appendChild 1 2 exHeapA) := by
  constructor
  · decide
  · decide

/-- Witness for C2 on a concrete two-node heap. -/
theorem modelPart_tree_consistency_witness :
    ModelPart.parentItem 1 (ModelPart.appendChild 0 1 exHeapB) = some 0 ∧
    ModelPart.childCount 0 (ModelPart.appendChild 0 1 exHeapB) =
      ModelPart.childCount 0 exHeapB + 1 ∧
    ModelPart.child 0 ((ModelPart.childCount 0 (ModelPart.appendChild 0 1 exHeapB) : Int) - 1)
      (ModelPart.appendChild 0 1 exHeapB) = some 1 ∧
    treeInv (ModelPart.appendChild 0 1 exHeapB) := by
  have hpost := modelPart_tree_consistency.1 exHeapB 0 1 (mkPart none []) (mkPart none []) rfl rfl
  have hinv := modelPart_tree_consistency.2.1 exHeapB 0 1 (mkPart none []) (mkPart none []) rfl rfl
      (fresh_of_check exHeapB 1 (by decide)) (by decide)
  exact ⟨hpost.1, hpost.2.1, hpost.2.2.1, hinv⟩

/-- C3: colour round trip — after setColour(R, G, B) with byte values the
three getters return R, G, B, getColor() returns QColor(R, G, B), setColor
is definitionally setColour on the components, and setColor(getColor())
leaves the stored colour unchanged. -/
theorem setColour_roundTrip (st : St) (p : Nat) (o : ModelPartObj) (R G B : Nat)
    (ho : st.partAt p = some o) (hR : R < 256) (hG : G < 256) (hB : B < 256) :
    ModelPart.getColourR p (ModelPart.setColour p R G B st) = R ∧
    ModelPart.getColourG p (ModelPart.setColour p R G B st) = G ∧
    ModelPart.getColourB p (ModelPart.setColour p R G B st) = B ∧
    ModelPart.getColor p (ModelPart.setColour p R G B st) = ⟨R, G, B⟩ ∧
    (∀ (st2 : St) (color : QColor),
        ModelPart.setColor p color st2 =
          ModelPart.setColour p color.red color.green color.blue st2) ∧
    ModelPart.getColourR p (ModelPart.setColor p
        (ModelPart.getColor p (ModelPart.setColour p R G B st))
        (ModelPart.setColour p R G B st)) =
      ModelPart.getColourR p (ModelPart.setColour p R G B st) ∧
    ModelPart.getColourG p (ModelPart.setColor p
        (ModelPart.getColor p (ModelPart.setColour p R G B st))
        (ModelPart.setColour p R G B st)) =
      ModelPart.getColourG p (ModelPart.setColour p R G B st) ∧
    ModelPart.getColourB p (ModelPart.setColor p
        (ModelPart.getColor p (ModelPart.setColour p R G B st))
        (ModelPart.setColour p R G B st)) =
      ModelPart.getColourB p (ModelPart.setColour p R G B st) := by
  have e1 := setColour_partAt st p o R G B ho
  have egR : ModelPart.getColourR p (ModelPart.setColour p R G B st) = R := by
    unfold ModelPart.getColourR
    rw [e1]
    dsimp only []
    exact Nat.mod_eq_of_lt hR
  have egG : ModelPart.getColourG p (ModelPart.setColour p R G B st) = G := by
    unfold ModelPart.getColourG
    rw [e1]
    dsimp only []
    exact Nat.mod_eq_of_lt hG
  have egB : ModelPart.getColourB p (ModelPart.setColour p R G B st) = B := by
    unfold ModelPart.getColourB
    rw [e1]
    dsimp only []
    exact Nat.mod_eq_of_lt hB
  have egC : ModelPart.getColor p (ModelPart.setColour p R G B st) = ⟨R, G, B⟩ := by
    unfold ModelPart.getColor
    rw [egR, egG, egB]
  have e2 := setColour_partAt (ModelPart.setColour p R G B st) p _ R G B e1
  refine ⟨egR, egG, egB, egC, fun st2 color => rfl, ?_, ?_, ?_⟩
  · rw [egC]
    show ModelPart.getColourR p (ModelPart.setColour p R G B (ModelPart.setColour p R G B st)) = _
    unfold ModelPart.getColourR
    rw [e2, e1]
  · rw [egC]
    show ModelPart.getColourG p (ModelPart.setColour p R G B (ModelPart.setColour p R G B st)) = _
    unfold ModelPart.getColourG
    rw [e2, e1]
  · rw [egC]
    show ModelPart.getColourB p (ModelPart.setColour p R G B (ModelPart.setColour p R G B st)) = _
    unfold ModelPart.getColourB
    rw [e2, e1]

/-- Witness for C3 on the loaded one-part heap. -/
theorem setColour_roundTrip_witness :
    ModelPart.getColourR 0 (ModelPart.setColour 0 10 20 30 exPart1) = 10 ∧
    ModelPart.getColourG 0 (ModelPart.setColour 0 10 20 30 exPart1) = 20 ∧
    ModelPart.getColourB 0 (ModelPart.setColour 0 10 20 30 exPart1) = 30 ∧
    ModelPart.getColor 0 (ModelPart.setColour 0 10 20 30 exPart1) = ⟨10, 20, 30⟩ := by
  have h := setColour_roundTrip exPart1 0 _ 10 20 30 rfl (by decide) (by decide) (by decide)
  exact ⟨h.1, h.2.1, h.2.2.1, h.2.2.2.1⟩

/-- C4: setVisible stores the flag (visible() then returns it); when a
primary actor exists its visibility flag is set too; when no actor is
loaded only the stored flag of the part changes. -/
theorem setVisible_spec (st : St) (p : Nat) (o : ModelPartObj) (v : Bool)
    (ho : st.partAt p = some o) :
    ModelPart.visible p (ModelPart.setVisible p v st) = v ∧
    (∀ (aid : Nat) (a : VtkActorObj), o.stlActor = some aid → st.actors[aid]? = some a →
        (ModelPart.setVisible p v st).actors[aid]? = some { a with visibility := v }) ∧
    (o.stlActor = none →
        ModelPart.setVisible p v st =
          { st with parts := (st.parts.set p (some { o with isVisible := v })) }) := by
  have hplen : p < st.parts.length := (List.getElem?_eq_some.mp (St.partAt_eq_some.mp ho)).1
  have evis : ∀ (o' : ModelPartObj) (ac : List VtkActorObj), o'.isVisible = v →
      ModelPart.visible p
        { st with parts := (st.parts.set p (some o')), actors := ac } = v := by
    intro o' ac hv
    unfold ModelPart.visible
    have e : ({ st with parts := (st.parts.set p (some o')), actors := ac } : St).partAt p =
        some o' := by
      rw [St.partAt_eq_some]
      show (st.parts.set p _)[p]? = _
      rw [List.getElem?_set_self hplen]
    rw [e]
    exact hv
  unfold ModelPart.setVisible
  rw [ho]
  dsimp only []
  cases ha : o.stlActor with
  | none =>
    dsimp only []
    refine ⟨?_, ?_, fun _ => rfl⟩
    · refine evis _ _ ?_
      rfl
    · intro aid a hcontra
      exact absurd hcontra (by simp)
  | some aid0 =>
    dsimp only []
    cases hb : st.actors[aid0]? with
    | some a0 =>
      refine ⟨?_, ?_, ?_⟩
      · refine evis _ _ ?_
        rfl
      · intro aid a ha2 hb2
        have haid : aid0 = aid := Option.some.inj ha2
        subst haid
        have haa : a0 = a := Option.some.inj (hb.symm.trans hb2)
        subst haa
        show (st.actors.set aid0 { a0 with visibility := v })[aid0]? = _
        rw [List.getElem?_set_self (List.getElem?_eq_some.mp hb).1]
      · intro hcontra
        exact absurd hcontra (by simp)
    | none =>
      refine ⟨?_, ?_, ?_⟩
      · refine evis _ _ ?_
        rfl
      · intro aid a ha2 hb2
        have haid : aid0 = aid := Option.some.inj ha2
        subst haid
        rw [hb] at hb2
        exact absurd hb2 (by simp)
      · intro hcontra
        exact absurd hcontra (by simp)

/-- Witness for C4 on the loaded one-part heap. -/
theorem setVisible_spec_witness :
    ModelPart.visible 0 (ModelPart.setVisible 0 false exPart1) = false ∧
    (ModelPart.setVisible 0 false exPart1).actors[0]? =
      some { mapper := some 0, prop := 0, visibility := false, origin := ⟨0, 0, 0⟩,
             pos := ⟨0, 0, 0⟩, orientationX := 0 } := by
  have h := setVisible_spec exPart1 0 _ false rfl
  refine ⟨h.1, ?_⟩
  have h2 := h.2.1 0 { VtkActorObj.new 0 with mapper := some 0 } rfl rfl
  exact h2.trans rfl

/-- C7: out-of-range accesses are guarded — child() yields nullptr, data()
yields the empty QVariant, and setData() leaves the whole state
untouched. -/
theorem accessors_guarded (st : St) (p : Nat) (o : ModelPartObj)
    (ho : st.partAt p = some o) :
    (∀ (row : Int), (row < 0 ∨ (ModelPart.childCount p st : Int) ≤ row) →
        ModelPart.child p row st = none) ∧
    (∀ (column : Int) (value : QVariant),
        (column < 0 ∨ (ModelPart.columnCount p st : Int) ≤ column) →
        ModelPart.data p column st = QVariant.null ∧
        ModelPart.setData p column value st = st) := by
  have ecc : ModelPart.childCount p st = o.m_childItems.length := by
    unfold ModelPart.childCount
    rw [ho]
  have ecol : ModelPart.columnCount p st = o.m_itemData.length := by
    unfold ModelPart.columnCount
    rw [ho]
  constructor
  · intro row hrow
    rw [ecc] at hrow
    unfold ModelPart.child
    rw [ho]
    dsimp only []
    rw [if_pos hrow]
  · intro column value hcol
    rw [ecol] at hcol
    constructor
    · unfold ModelPart.data
      rw [ho]
      dsimp only []
      rw [if_pos hcol]
    · unfold ModelPart.setData
      rw [ho]
      dsimp only []
      rw [if_pos hcol]

/-- Witness for C7 on the one-part heap (one data column). -/
theorem accessors_guarded_witness :
    ModelPart.child 0 5 exPart0 = none ∧
    ModelPart.data 0 (-1) exPart0 = QVariant.null ∧
    ModelPart.setData 0 (-1) (QVariant.intVal 7) exPart0 = exPart0 := by
  have h := accessors_guarded exPart0 0 _ rfl
  have h2 := h.2 (-1) (QVariant.intVal 7) (by left; decide)
  exact ⟨h.1 5 (by right; decide), h2.1, h2.2⟩

/-- C8: getNewActor() returns nullptr exactly when the primary actor is
null (no loadSTL yet); in that case the whole heap is untouched; after
loadSTL the primary actor is never null. -/
theorem getNewActor_null_iff (st : St) (p : Nat) (o : ModelPartObj)
    (ho : st.partAt p = some o) :
    ((ModelPart.getNewActor p st).2 = none ↔ o.stlActor = none) ∧
    (o.stlActor = none → ModelPart.getNewActor p st = (st, none)) ∧
    (∀ (fn : String) (o2 : ModelPartObj),
        (ModelPart.loadSTL p fn st).partAt p = some o2 → o2.stlActor ≠ none) := by
  have hplen : p < st.parts.length := (List.getElem?_eq_some.mp (St.partAt_eq_some.mp ho)).1
  refine ⟨?_, ?_, ?_⟩
  · unfold ModelPart.getNewActor
    rw [ho]
    dsimp only []
    cases ha : o.stlActor with
    | none => simp
    | some origAid => simp
  · intro ha
    unfold ModelPart.getNewActor
    rw [ho]
    dsimp only []
    rw [ha]
  · intro fn o2 h2
    unfold ModelPart.loadSTL at h2
    rw [ho] at h2
    dsimp only [] at h2
    rw [St.partAt_eq_some] at h2
    have h3 : (st.parts.set p (some { o with stlReader := some st.readers.length, stlMapper := some st.mappers.length, stlActor := some st.actors.length }))[p]? = some (some o2) := h2
    rw [List.getElem?_set_self hplen] at h3
    have ho2 : { o with stlReader := some st.readers.length, stlMapper := some st.mappers.length, stlActor := some st.actors.length } = o2 := oo_inj h3
    rw [← ho2]
    simp

/-- Witness for C8: before loadSTL getNewActor returns null and leaves the
heap untouched; after loadSTL the primary actor exists. -/
theorem getNewActor_null_iff_witness :
    ((ModelPart.getNewActor 0 exPart0).2 = none ↔
      (⟨[QVariant.str "Part"], none, [], false, none, none, none, none, none, 0, 0, 0, none⟩ : ModelPartObj).stlActor = none) ∧
    ModelPart.getNewActor 0 exPart0 = (exPart0, none) := by
  have h := getNewActor_null_iff exPart0 0
      ⟨[QVariant.str "Part"], none, [], false, none, none, none, none, none, 0, 0, 0, none⟩ rfl
  exact ⟨h.1, h.2.1 rfl⟩

/-- C5 (amended): getNewActor() returns a newly allocated actor, distinct
from the primary actor, backed by a newly allocated vtkDataSetMapper whose
input is the part's STL reader; but `SetProperty(stlActor->GetProperty())`
makes the new actor share the primary actor's property object rather than
copy it, so the two actors' effective visual properties coincide. -/
theorem getNewActor_shares_property (st : St) (p : Nat) (o : ModelPartObj) (origAid : Nat)
    (ho : st.partAt p = some o) (ha : o.stlActor = some origAid)
    (halen : origAid < st.actors.length) :
    ∃ (aid : Nat), (ModelPart.getNewActor p st).2 = some aid ∧
      aid ≠ origAid ∧ aid = st.actors.length ∧
      ∃ (a : VtkActorObj), (ModelPart.getNewActor p st).1.actors[aid]? = some a ∧
        a.mapper = some st.mappers.length ∧
        (ModelPart.getNewActor p st).1.mappers[st.mappers.length]? =
          some ⟨MapperKind.dataSet, o.stlReader⟩ ∧
        (∀ (oa : VtkActorObj), st.actors[origAid]? = some oa → a.prop = oa.prop) ∧
        St.actorColor (ModelPart.getNewActor p st).1 aid =
          St.actorColor (ModelPart.getNewActor p st).1 origAid := by
  obtain ⟨oa0, hoa0⟩ : ∃ oa, st.actors[origAid]? = some oa := by
    cases hx : st.actors[origAid]? with
    | some a => exact ⟨a, rfl⟩
    | none =>
      have := List.getElem?_eq_getElem halen
      rw [hx] at this
      exact absurd this (by simp)
  unfold ModelPart.getNewActor
  rw [ho]
  dsimp only []
  rw [ha]
  dsimp only []
  rw [hoa0]
  dsimp only []
  refine ⟨st.actors.length, rfl, ?_, rfl, ?_⟩
  · intro he
    rw [he] at halen
    exact absurd halen (lt_irrefl _)
  · refine ⟨{ VtkActorObj.new st.props.length with mapper := some st.mappers.length, prop := oa0.prop }, ?_, rfl, ?_, ?_, ?_⟩
    · show (st.actors ++ [_])[st.actors.length]? = _
      rw [List.getElem?_concat_length]
    · show (st.mappers ++ [_])[st.mappers.length]? = _
      rw [List.getElem?_concat_length]
    · intro oa hoa
      have : oa0 = oa := Option.some.inj hoa
      rw [this]
    · unfold St.actorColor
      have e1 : (st.actors ++ [({ VtkActorObj.new st.props.length with mapper := some st.mappers.length, prop := oa0.prop } : VtkActorObj)])[st.actors.length]? = some ({ VtkActorObj.new st.props.length with mapper := some st.mappers.length, prop := oa0.prop } : VtkActorObj) :=
        List.getElem?_concat_length _ _
      have e2 : (st.actors ++ [({ VtkActorObj.new st.props.length with mapper := some st.mappers.length, prop := oa0.prop } : VtkActorObj)])[origAid]? = some oa0 := by
        rw [List.getElem?_append_left halen]
        exact hoa0
      rw [e1, e2]

/-- C5 counterexample: on the loaded one-part heap the new actor starts
with the primary actor's (white) colour, and recolouring the part — which
writes through the primary actor's property — changes the new actor's
colour as well: the property is shared, not copied. -/
theorem getNewActor_property_not_copied_cex :
    (ModelPart.getNewActor 0 exPart1).2 = some 1 ∧
    St.actorColor exPart2 0 = St.actorColor exPart2 1 ∧
    St.actorColor exPart2 1 = some ⟨1, 1, 1⟩ ∧
    St.actorColor exPart3 1 = some ⟨1, 0, 0⟩ := by
  refine ⟨rfl, rfl, rfl, ?_⟩
  have e : St.actorColor exPart3 1 =
      some ⟨((255 % 256 : Nat) : ℚ) / 255, ((0 % 256 : Nat) : ℚ) / 255, ((0 % 256 : Nat) : ℚ) / 255⟩ := rfl
  rw [e]
  simp only [Option.some.injEq, V3.mk.injEq]
  norm_num

/-- Witness for C5 on the loaded one-part heap. -/
theorem getNewActor_shares_property_witness :
    ∃ (aid : Nat), (ModelPart.getNewActor 0 exPart1).2 = some aid ∧
      aid ≠ 0 ∧ aid = exPart1.actors.length ∧
      ∃ (a : VtkActorObj), (ModelPart.getNewActor 0 exPart1).1.actors[aid]? = some a ∧
        a.mapper = some exPart1.mappers.length ∧
        (ModelPart.getNewActor 0 exPart1).1.mappers[exPart1.mappers.length]? =
          some ⟨MapperKind.dataSet, some 0⟩ ∧
        (∀ (oa : VtkActorObj), exPart1.actors[0]? = some oa → a.prop = oa.prop) ∧
        St.actorColor (ModelPart.getNewActor 0 exPart1).1 aid =
          St.actorColor (ModelPart.getNewActor 0 exPart1).1 0 :=
  getNewActor_shares_property exPart1 0 _ 0 rfl rfl (by decide)
